import Mathlib

/-!
Verification of the `rlshukhov/storage` key-value library.

The repository offers one provider contract with two backends:
* the Snapshot File Backend (`file/provider.go`): two in-memory Go maps
  (entries and references) flushed wholesale to a backing file on every
  mutation;
* the Embedded Engine Backend (`badger` provider): a single Badger keyspace
  holding byte-encoded keys, with gob-encoded values for data entries and
  raw encoded-key bytes for references;
plus a selector (`GetKeyValueProviderFromConfig`) and a unified error
taxonomy (`errors/errors.go`).

Go maps are embedded as association lists with at most one binding per key
reachable from the operations; map iteration order (unspecified in Go) is
represented by the list order.  File-system effects are made explicit: every
mutating operation of the file backend returns, besides the new state, the
list of `os.WriteFile` calls it performed, and takes a `writeOk` oracle
saying whether a write to a given path succeeds (`os.WriteFile` may fail,
e.g. on an empty path).  The yaml/json marshaling codecs are external
collaborators and are modelled as total: a write event records the
pre-serialization payload.
-/

namespace Storage

/-- Unified error taxonomy.  `errors/errors.go` exports the `NotFound`
sentinel; `NewNotFound` wraps a backend cause under it, and `errors.Is`
against the sentinel still succeeds, so a wrapped not-found is modelled as
`notFound` itself.  The remaining cases stand for errors surfaced
unmodified: a failed `os.WriteFile`, a failed gob decode of stored value
bytes, a failed `byteToKey` conversion, and the selector's
"storage provider is not configured". -/
inductive Err where
  | notFound
  | ioFailed
  | gobDecodeFailed
  | badKeyBytes
  | configFailed
  deriving DecidableEq, Repr

variable {K V : Type}

/-- Go map read `m[k]`: the association list holds at most one binding per
key in every reachable state, and `mlookup` returns the first one. -/
def mlookup [DecidableEq K] (m : List (K × V)) (k : K) : Option V :=
  match m with
  | [] => none
  | (a, b) :: t => if a = k then some b else mlookup t k

/-- Go map write `m[k] = v`: replace the binding in place if present,
otherwise add a new one. -/
def minsert [DecidableEq K] (m : List (K × V)) (k : K) (v : V) : List (K × V) :=
  match m with
  | [] => [(k, v)]
  | (a, b) :: t => if a = k then (k, v) :: t else (a, b) :: minsert t k v

/-- Go `delete(m, k)`: remove the binding for `k` (a no-op when absent). -/
def merase [DecidableEq K] (m : List (K × V)) (k : K) : List (K × V) :=
  match m with
  | [] => []
  | (a, b) :: t => if a = k then merase t k else (a, b) :: merase t k

namespace file

/-- `file.Config`: backing file path and optional inline content. -/
structure Config where
  path : String
  content : String
  deriving DecidableEq, Repr

/-- The serialization format remembered at construction (`jsn` / `yml`). -/
inductive FType where
  | jsn
  | yml
  deriving DecidableEq, Repr

/-- `data[K, V]`: the two in-memory mappings of the snapshot backend. -/
structure Data (K V : Type) where
  dataMap : List (K × V)
  references : List (K × K)
  deriving DecidableEq, Repr

/-- `provider[K, V]` state: configuration, mappings, and remembered format.
The `sync.RWMutex` serializes each call and is not represented: every
operation below is one full critical section. -/
structure Provider (K V : Type) where
  cfg : Config
  data : Data K V
  fileType : FType
  deriving DecidableEq, Repr

/-- One `os.WriteFile` call performed by `saveToFile`: target path, the
format the payload is serialized in, and the payload itself (the snapshot
serialized by the external yaml/json codec). -/
structure WriteEvent (K V : Type) where
  path : String
  ftype : FType
  payload : Data K V
  deriving DecidableEq, Repr

variable [DecidableEq K]

/-- `saveToFile`: marshals `p.data` and overwrites `p.cfg.Path`.  The
`any(k).(int)` branch in the source is unreachable (`K` is constrained to
`~string | ~uint64`, never `int`), so the marshaled document is always the
full `p.data` pair.  Marshaling is modelled as total; the emitted
`os.WriteFile` succeeds iff the `writeOk` oracle allows the path.  Note the
write is attempted unconditionally: `saveToFile` never consults
`cfg.Content`. -/
def saveToFile (p : Provider K V) (writeOk : String → Bool) :
    Option Err × List (WriteEvent K V) :=
  ((if writeOk p.cfg.path then none else some Err.ioFailed),
   [⟨p.cfg.path, p.fileType, p.data⟩])

/-- `Store`: `p.data.DataMap[key] = value` then `saveToFile`. -/
def Store (p : Provider K V) (key : K) (value : V) (writeOk : String → Bool) :
    Provider K V × Option Err × List (WriteEvent K V) :=
  let p' := { p with data := { p.data with dataMap := minsert p.data.dataMap key value } }
  let r := saveToFile p' writeOk
  (p', r.1, r.2)

/-- `Get`: look the key up in `DataMap`; `errors.NotFound` when absent. -/
def Get (p : Provider K V) (key : K) : Except Err V :=
  match mlookup p.data.dataMap key with
  | none => Except.error Err.notFound
  | some v => Except.ok v

/-- `GetMultiple`: sequential `Get` per key; on the first failure return
the empty slice `[]V{}` with that error, else the values in key order. -/
def GetMultiple (p : Provider K V) (keys : List K) : List V × Option Err :=
  match keys with
  | [] => ([], none)
  | k :: t =>
    match Get p k with
    | Except.error e => ([], some e)
    | Except.ok v =>
      match GetMultiple p t with
      | (_, some e) => ([], some e)
      | (vs, none) => (v :: vs, none)

/-- `Remove`: `errors.NotFound` when the key is absent (state untouched, no
file write); otherwise delete the binding and `saveToFile`. -/
def Remove (p : Provider K V) (key : K) (writeOk : String → Bool) :
    Provider K V × Option Err × List (WriteEvent K V) :=
  match mlookup p.data.dataMap key with
  | none => (p, some Err.notFound, [])
  | some _ =>
    let p' := { p with data := { p.data with dataMap := merase p.data.dataMap key } }
    let r := saveToFile p' writeOk
    (p', r.1, r.2)

/-- The visit trace of the `ForEach` range loop: entries are visited in
map-iteration order (the list order here); a visitor returning `false`
breaks out of the loop, the entry it rejected having been visited. -/
def visits (m : List (K × V)) (fn : K → V → Bool) : List (K × V) :=
  match m with
  | [] => []
  | (k, v) :: t => if fn k v then (k, v) :: visits t fn else [(k, v)]

/-- `ForEach`: ranges over `DataMap`, stops early on a `false` visitor, and
always returns `nil`.  The result is the returned error paired with the
trace of visited entries. -/
def ForEach (p : Provider K V) (fn : K → V → Bool) :
    Option Err × List (K × V) :=
  (none, visits p.data.dataMap fn)

/-- `StoreReference`: `p.data.References[reference] = key` then
`saveToFile`; the target key is not required to exist. -/
def StoreReference (p : Provider K V) (reference : K) (key : K)
    (writeOk : String → Bool) :
    Provider K V × Option Err × List (WriteEvent K V) :=
  let p' := { p with data := { p.data with references := minsert p.data.references reference key } }
  let r := saveToFile p' writeOk
  (p', r.1, r.2)

/-- `RemoveReference`: `errors.NotFound` when the alias is absent;
otherwise delete it and `saveToFile`. -/
def RemoveReference (p : Provider K V) (reference : K)
    (writeOk : String → Bool) :
    Provider K V × Option Err × List (WriteEvent K V) :=
  match mlookup p.data.references reference with
  | none => (p, some Err.notFound, [])
  | some _ =>
    let p' := { p with data := { p.data with references := merase p.data.references reference } }
    let r := saveToFile p' writeOk
    (p', r.1, r.2)

/-- `GetByReference`: resolve the alias in `References` (`NotFound` when
absent), then the target key in `DataMap` (`NotFound` when absent). -/
def GetByReference (p : Provider K V) (reference : K) : Except Err V :=
  match mlookup p.data.references reference with
  | none => Except.error Err.notFound
  | some key =>
    match mlookup p.data.dataMap key with
    | none => Except.error Err.notFound
    | some v => Except.ok v

/-- `Shutdown`: one final full flush via `saveToFile`. -/
def Shutdown (p : Provider K V) (writeOk : String → Bool) :
    Option Err × List (WriteEvent K V) :=
  saveToFile p writeOk

end file

namespace badger

/-- A value byte-string living in the single Badger keyspace.  `Store`
writes gob-encoded value bytes (`encVal`); `StoreReference` writes the raw
encoded bytes of the target key (`keyBytes`).  Both inhabit the same value
space in the engine; the constructors keep the two byte shapes apart in the
model (a gob stream carries type headers, so raw key text is not a valid
gob stream). -/
inductive BVal (K V : Type) where
  | encVal (v : V)
  | keyBytes (s : String)
  deriving DecidableEq, Repr

/-- The key byte-encoding of one supported key domain, from `keyToByte` /
`byteToKey`: `enc` is the domain's branch of `keyToByte` (byte strings
are represented as `String`), `dec` the matching branch of `byteToKey`,
which may fail (e.g. `strconv.ParseUint` on non-decimal bytes). -/
structure KeyCodec (K : Type) where
  enc : K → String
  dec : String → Except Err K

/-- `keyToByte` for `K = string`: the raw bytes of the string; `byteToKey`
turns any bytes back into a string. -/
def stringCodec : KeyCodec String :=
  ⟨fun s => s, fun s => Except.ok s⟩

/-- `keyToByte` for `K = uint64`: `strconv.FormatUint(k, 10)` (decimal
ASCII); `byteToKey` is `strconv.ParseUint(string(b), 10, 64)`, failing on
non-decimal text or overflow past 64 bits. -/
def uint64Codec : KeyCodec Nat :=
  ⟨fun n => toString n,
   fun s =>
     match s.toNat? with
     | none => Except.error Err.badKeyBytes
     | some n => if n < 2 ^ 64 then Except.ok n else Except.error Err.badKeyBytes⟩

variable {K V : Type}

/-- The engine state: one keyspace from encoded key bytes to value bytes,
listed in the engine's iteration order.  Each provider operation below is
one Badger transaction; the engine's own I/O is out of scope (treated as
an external collaborator), so transactions are pure state transforms. -/
abbrev DB (K V : Type) : Type := List (String × BVal K V)

/-- `Store`: `txn.Set(keyToByte key, gob(value))` inside one update
transaction, which does not fail for a well-formed key; `mapError` passes
`nil` through. -/
def Store (c : KeyCodec K) (db : DB K V) (key : K) (value : V) :
    DB K V × Option Err :=
  (minsert db (c.enc key) (BVal.encVal value), none)

/-- `Get`: `txn.Get(keyToByte key)` — Badger reports `ErrKeyNotFound` when
the encoded key is absent, which `mapError` wraps into the unified
`NotFound`; otherwise gob-decode the stored bytes (raw reference key bytes
are not a gob stream, so decoding them fails and that error is surfaced
unmodified). -/
def Get (c : KeyCodec K) (db : DB K V) (key : K) : Except Err V :=
  match mlookup db (c.enc key) with
  | none => Except.error Err.notFound
  | some (BVal.encVal v) => Except.ok v
  | some (BVal.keyBytes _) => Except.error Err.gobDecodeFailed

/-- `GetMultiple`: sequential `Get` per key; on the first failure return
the empty slice `[]V{}` with that error, else the values in key order. -/
def GetMultiple (c : KeyCodec K) (db : DB K V) (keys : List K) :
    List V × Option Err :=
  match keys with
  | [] => ([], none)
  | k :: t =>
    match Get c db k with
    | Except.error e => ([], some e)
    | Except.ok v =>
      match GetMultiple c db t with
      | (_, some e) => ([], some e)
      | (vs, none) => (v :: vs, none)

/-- `Remove`: `txn.Delete(keyToByte key)`.  Badger's `Delete` writes a
tombstone without checking existence, so it succeeds (returns `nil`) even
when the key is absent; `mapError` sees no `ErrKeyNotFound` and passes
`nil` through. -/
def Remove (c : KeyCodec K) (db : DB K V) (key : K) : DB K V × Option Err :=
  (merase db (c.enc key), none)

/-- The visit trace and outcome of the `ForEach` iterator scan, following
the engine's key order (the list order): each item's key bytes are decoded
by `byteToKey` (a failure aborts the scan with that error), its value bytes
by gob (a reference's raw key bytes fail, aborting likewise); the visitor's
`false` is turned into the internal stop sentinel, which the scan maps back
to `nil`. -/
def forEachScan (c : KeyCodec K) (db : DB K V) (fn : K → V → Bool) :
    Option Err × List (K × V) :=
  match db with
  | [] => (none, [])
  | (s, bv) :: t =>
    match c.dec s with
    | Except.error e => (some e, [])
    | Except.ok k =>
      match bv with
      | BVal.keyBytes _ => (some Err.gobDecodeFailed, [])
      | BVal.encVal v =>
        if fn k v then
          let r := forEachScan c t fn
          (r.1, (k, v) :: r.2)
        else (none, [(k, v)])

/-- `ForEach`: one read-view transaction running the iterator scan. -/
def ForEach (c : KeyCodec K) (db : DB K V) (fn : K → V → Bool) :
    Option Err × List (K × V) :=
  forEachScan c db fn

/-- `StoreReference`: `txn.Set(keyToByte reference, keyToByte key)` — the
alias goes into the same keyspace as data entries, its value being the raw
encoded bytes of the target key. -/
def StoreReference (c : KeyCodec K) (db : DB K V) (reference : K) (key : K) :
    DB K V × Option Err :=
  (minsert db (c.enc reference) (BVal.keyBytes (c.enc key)), none)

/-- `RemoveReference`: `txn.Delete(keyToByte reference)`, a blind tombstone
write like `Remove`. -/
def RemoveReference (c : KeyCodec K) (db : DB K V) (reference : K) :
    DB K V × Option Err :=
  (merase db (c.enc reference), none)

/-- `GetByReference`: read the bytes stored at the encoded alias
(`ErrKeyNotFound` mapped to `NotFound` when absent), convert them back to a
key with `byteToKey` (whose failure is surfaced unmodified; gob value bytes
found under the alias are not decimal/raw key text, modelled as that
failure), then delegate to `Get` on the target key. -/
def GetByReference (c : KeyCodec K) (db : DB K V) (reference : K) :
    Except Err V :=
  match mlookup db (c.enc reference) with
  | none => Except.error Err.notFound
  | some (BVal.encVal _) => Except.error Err.badKeyBytes
  | some (BVal.keyBytes s) =>
    match c.dec s with
    | Except.error e => Except.error e
    | Except.ok key => Get c db key

end badger

namespace selector

/-- `badger.Config`: nullable directory path and the in-memory flag. -/
structure BadgerConfig where
  directoryPath : Option String
  inMemory : Bool
  deriving DecidableEq, Repr

/-- `storage.KeyValueConfig`: at most one backend config, each nullable. -/
structure KeyValueConfig where
  badgerCfg : Option BadgerConfig
  fileCfg : Option file.Config
  deriving DecidableEq, Repr

/-- Which backend `GetKeyValueProviderFromConfig` dispatches to, carrying
the config handed to that backend's `New`. -/
inductive Selection where
  | badgerProvider (cfg : BadgerConfig)
  | fileProvider (cfg : file.Config)
  deriving DecidableEq, Repr

/-- `GetKeyValueProviderFromConfig`: `switch true` over the nullable
configs — the Badger case is listed first so it wins when both are set;
with neither set it fails with `storage provider is not configured`.  The
model stops at the dispatch: the chosen backend's `New` then runs on the
carried config (its own construction errors are not selection errors). -/
def GetKeyValueProviderFromConfig (c : KeyValueConfig) : Except Err Selection :=
  match c.badgerCfg with
  | some bc => Except.ok (Selection.badgerProvider bc)
  | none =>
    match c.fileCfg with
    | some fc => Except.ok (Selection.fileProvider fc)
    | none => Except.error Err.configFailed

end selector

/-! ### Concrete fixtures for closed instances -/

/-- A path-backed configuration (empty `content`). -/
def sampleCfg : file.Config := ⟨"/tmp/store.json", ""⟩

/-- An inline-content configuration: non-empty `content` (the JSON text of
an empty document, which `json.Unmarshal` accepts, leaving both maps empty
and the remembered format `jsn`) alongside a path. -/
def inlineCfg : file.Config := ⟨"/tmp/store.json", "\x7b\x7d"⟩

/-- A file-system oracle under which every `os.WriteFile` succeeds. -/
def wAll : String → Bool := fun _ => true

/-- A file-system oracle under which every `os.WriteFile` fails. -/
def wNone : String → Bool := fun _ => false

/-- A freshly constructed path-backed provider (empty file). -/
def pEmpty : file.Provider String String := ⟨sampleCfg, ⟨[], []⟩, file.FType.jsn⟩

/-- A path-backed provider holding entries `a ↦ x`, `b ↦ y` and the
reference `r ↦ a`; reachable by `Store`/`StoreReference` from `pEmpty`. -/
def pAB : file.Provider String String :=
  ⟨sampleCfg, ⟨[("a", "x"), ("b", "y")], [("r", "a")]⟩, file.FType.jsn⟩

/-- The provider `New` yields for `inlineCfg`: inline parse succeeded,
both maps empty, format `jsn`. -/
def pInline : file.Provider String String := ⟨inlineCfg, ⟨[], []⟩, file.FType.jsn⟩

/-- A Badger keyspace holding the data entries `a ↦ x`, `b ↦ y` (string
key domain, so keys coincide with their encoded bytes). -/
def dbAB : badger.DB String String :=
  [("a", badger.BVal.encVal "x"), ("b", badger.BVal.encVal "y")]

/-- A path-backed provider holding three entries and no references. -/
def pABC : file.Provider String String :=
  ⟨sampleCfg, ⟨[("a", "x"), ("b", "y"), ("c", "z")], []⟩, file.FType.jsn⟩

/-- The same three entries as a plain entry list (for the engine image). -/
def lABC : List (String × String) := [("a", "x"), ("b", "y"), ("c", "z")]

/-- A visitor that continues past key `a` and stops at any other key. -/
def fnStop : String → String → Bool := fun k _ => k == "a"

/-- A path-backed provider with the entry `a ↦ x`, a live reference
`r ↦ a` and a dangling reference `d ↦ m`. -/
def pRefs : file.Provider String String :=
  ⟨sampleCfg, ⟨[("a", "x")], [("r", "a"), ("d", "m")]⟩, file.FType.jsn⟩

/-- A Badger keyspace with the data entry `a ↦ x`, a live reference
`r ↦ a` and a dangling reference `d ↦ m`, all in the one keyspace. -/
def dbRefs : badger.DB String String :=
  [("a", badger.BVal.encVal "x"),
   ("r", badger.BVal.keyBytes "a"),
   ("d", badger.BVal.keyBytes "m")]

/-! ### Map lemmas shared by the claim proofs -/

variable [DecidableEq K]

theorem mlookup_minsert_self (m : List (K × V)) (k : K) (v : V) :
    mlookup (minsert m k v) k = some v := by
  induction m with
  | nil => simp [minsert, mlookup]
  | cons hd t ih =>
    obtain ⟨a, b⟩ := hd
    by_cases hak : a = k
    · simp [minsert, hak, mlookup]
    · simp [minsert, hak, mlookup, ih]

theorem mlookup_minsert_ne (m : List (K × V)) (k k' : K) (v : V)
    (h : k' ≠ k) : mlookup (minsert m k v) k' = mlookup m k' := by
  induction m with
  | nil => simp [minsert, mlookup, Ne.symm h]
  | cons hd t ih =>
    obtain ⟨a, b⟩ := hd
    by_cases hak : a = k
    · subst hak
      simp [minsert, mlookup, Ne.symm h]
    · simp only [minsert, if_neg hak, mlookup]
      by_cases hak' : a = k'
      · simp [hak']
      · simp [hak', ih]

theorem mlookup_merase_self (m : List (K × V)) (k : K) :
    mlookup (merase m k) k = none := by
  induction m with
  | nil => simp [merase, mlookup]
  | cons hd t ih =>
    obtain ⟨a, b⟩ := hd
    by_cases hak : a = k
    · simp [merase, hak, ih]
    · simp [merase, hak, mlookup, ih]

theorem merase_of_mlookup_none (m : List (K × V)) (k : K)
    (h : mlookup m k = none) : merase m k = m := by
  induction m with
  | nil => simp [merase]
  | cons hd t ih =>
    obtain ⟨a, b⟩ := hd
    by_cases hak : a = k
    · simp [mlookup, hak] at h
    · simp only [mlookup, if_neg hak] at h
      simp [merase, hak, ih h]

theorem mem_of_mlookup (m : List (K × V)) (k : K) (b : V)
    (h : mlookup m k = some b) : (k, b) ∈ m := by
  induction m with
  | nil => simp [mlookup] at h
  | cons hd t ih =>
    obtain ⟨a, c⟩ := hd
    by_cases hak : a = k
    · subst hak
      simp [mlookup] at h
      simp [h]
    · simp only [mlookup, if_neg hak] at h
      simp [ih h]

theorem length_filterMap_of_isSome {α β : Type} (l : List α) (f : α → Option β)
    (h : ∀ a ∈ l, (f a).isSome) : (l.filterMap f).length = l.length := by
  induction l with
  | nil => simp
  | cons a t ih =>
    obtain ⟨b, hb⟩ := Option.isSome_iff_exists.mp (h a (by simp))
    simp [List.filterMap_cons, hb, ih (fun x hx => h x (by simp [hx]))]

theorem file_getMultiple_all_present (p : file.Provider K V) (keys : List K)
    (h : ∀ k ∈ keys, (mlookup p.data.dataMap k).isSome) :
    file.GetMultiple p keys
      = (keys.filterMap (fun k => mlookup p.data.dataMap k), none) := by
  induction keys with
  | nil => simp [file.GetMultiple]
  | cons a t ih =>
    obtain ⟨v, hv⟩ := Option.isSome_iff_exists.mp (h a (by simp))
    have ht := ih (fun k hk => h k (by simp [hk]))
    simp [file.GetMultiple, file.Get, hv, ht, List.filterMap_cons]

theorem file_getMultiple_absent (p : file.Provider K V) (keys : List K)
    (h : ∃ k ∈ keys, mlookup p.data.dataMap k = none) :
    file.GetMultiple p keys = ([], some Err.notFound) := by
  induction keys with
  | nil => simp at h
  | cons a t ih =>
    by_cases ha : mlookup p.data.dataMap a = none
    · simp [file.GetMultiple, file.Get, ha]
    · obtain ⟨v, hv⟩ := Option.ne_none_iff_exists'.mp ha
      have hT : ∃ k ∈ t, mlookup p.data.dataMap k = none := by
        obtain ⟨k, hk, hkn⟩ := h
        rcases List.mem_cons.mp hk with hka | hkt
        · subst hka
          exact absurd hkn ha
        · exact ⟨k, hkt, hkn⟩
      simp [file.GetMultiple, file.Get, hv, ih hT]

theorem badger_getMultiple_all_present {K' V' : Type} [DecidableEq K']
    (c : badger.KeyCodec K') (db : badger.DB K' V') (keys : List K')
    (hwf : ∀ s bv, (s, bv) ∈ db → ∃ v, bv = badger.BVal.encVal v)
    (h : ∀ k ∈ keys, (mlookup db (c.enc k)).isSome) :
    badger.GetMultiple c db keys
      = (keys.filterMap (fun k =>
          match mlookup db (c.enc k) with
          | some (badger.BVal.encVal v) => some v
          | _ => none), none) := by
  induction keys with
  | nil => simp [badger.GetMultiple]
  | cons a t ih =>
    obtain ⟨bv, hbv⟩ := Option.isSome_iff_exists.mp (h a (by simp))
    obtain ⟨v, rfl⟩ := hwf _ _ (mem_of_mlookup db (c.enc a) bv hbv)
    have ht := ih (fun k hk => h k (by simp [hk]))
    simp [badger.GetMultiple, badger.Get, hbv, ht, List.filterMap_cons]

theorem badger_getMultiple_absent {K' V' : Type} [DecidableEq K']
    (c : badger.KeyCodec K') (db : badger.DB K' V') (keys : List K')
    (hwf : ∀ s bv, (s, bv) ∈ db → ∃ v, bv = badger.BVal.encVal v)
    (h : ∃ k ∈ keys, mlookup db (c.enc k) = none) :
    badger.GetMultiple c db keys = ([], some Err.notFound) := by
  induction keys with
  | nil => simp at h
  | cons a t ih =>
    by_cases ha : mlookup db (c.enc a) = none
    · simp [badger.GetMultiple, badger.Get, ha]
    · obtain ⟨bv, hbv⟩ := Option.ne_none_iff_exists'.mp ha
      obtain ⟨v, rfl⟩ := hwf _ _ (mem_of_mlookup db (c.enc a) bv hbv)
      have hT : ∃ k ∈ t, mlookup db (c.enc k) = none := by
        obtain ⟨k, hk, hkn⟩ := h
        rcases List.mem_cons.mp hk with hka | hkt
        · subst hka
          exact absurd hkn ha
        · exact ⟨k, hkt, hkn⟩
      simp [badger.GetMultiple, badger.Get, hbv, ih hT]

theorem visits_all_true (m : List (K × V)) :
    file.visits m (fun _ _ => true) = m := by
  induction m with
  | nil => rfl
  | cons hd t ih =>
    obtain ⟨a, b⟩ := hd
    simp [file.visits, ih]

theorem visits_break (pre post : List (K × V)) (k : K) (v : V)
    (fn : K → V → Bool) (hpre : ∀ e ∈ pre, fn e.1 e.2 = true)
    (hkv : fn k v = false) :
    file.visits (pre ++ (k, v) :: post) fn = pre ++ [(k, v)] := by
  induction pre with
  | nil => simp [file.visits, hkv]
  | cons hd t ih =>
    obtain ⟨a, b⟩ := hd
    have ha := hpre (a, b) (by simp)
    simp only [List.cons_append, file.visits, ha, if_true]
    simp [ih (fun e he => hpre e (by simp [he]))]

theorem forEachScan_all_true {K' V' : Type} [DecidableEq K']
    (c : badger.KeyCodec K') (l : List (K' × V'))
    (hdec : ∀ e ∈ l, c.dec (c.enc e.1) = Except.ok e.1) :
    badger.forEachScan c
      (l.map fun e => (c.enc e.1, badger.BVal.encVal e.2)) (fun _ _ => true)
      = (none, l) := by
  induction l with
  | nil => rfl
  | cons hd t ih =>
    obtain ⟨a, b⟩ := hd
    have ha := hdec (a, b) (by simp)
    simp [badger.forEachScan, ha, ih (fun e he => hdec e (by simp [he]))]

theorem forEachScan_break {K' V' : Type} [DecidableEq K']
    (c : badger.KeyCodec K') (pre post : List (K' × V')) (k : K') (v : V')
    (fn : K' → V' → Bool)
    (hdec : ∀ e ∈ pre, c.dec (c.enc e.1) = Except.ok e.1)
    (hdk : c.dec (c.enc k) = Except.ok k)
    (hpre : ∀ e ∈ pre, fn e.1 e.2 = true) (hkv : fn k v = false) :
    badger.forEachScan c
      ((pre ++ (k, v) :: post).map fun e => (c.enc e.1, badger.BVal.encVal e.2)) fn
      = (none, pre ++ [(k, v)]) := by
  induction pre with
  | nil => simp [badger.forEachScan, hdk, hkv]
  | cons hd t ih =>
    obtain ⟨a, b⟩ := hd
    have hda := hdec (a, b) (by simp)
    have hfa := hpre (a, b) (by simp)
    simp only [List.cons_append, List.map_cons, badger.forEachScan, hda, hfa, if_true]
    have hih := ih (fun e he => hdec e (by simp [he])) (fun e he => hpre e (by simp [he]))
    simp only [List.map_append, List.map_cons] at hih
    simp [hih]

/-! ### Claim theorems -/

/-- C4: for both backends, any supported key domain (the `KeyCodec` is
arbitrary, covering the string and uint64 branches of `keyToByte`), and
every key and value, `Store(k, v)` followed by `Get(k)` returns `v` with
no error. -/
theorem store_then_get_returns_value
    {K V K' V' : Type} [DecidableEq K] [DecidableEq K']
    (p : file.Provider K V) (k : K) (v : V) (w : String → Bool)
    (c : badger.KeyCodec K') (db : badger.DB K' V') (k' : K') (v' : V') :
    file.Get (file.Store p k v w).1 k = Except.ok v ∧
    badger.Get c (badger.Store c db k' v').1 k' = Except.ok v' := by
  constructor
  · simp [file.Store, file.Get, mlookup_minsert_self]
  · simp [badger.Store, badger.Get, mlookup_minsert_self]

/-- C3: in the Snapshot File Backend, `Store(k, v)` then
`StoreReference(k, t)` leaves `Get(k) = v` (the two mappings are
disjoint); in the Embedded Engine Backend the same sequence succeeds
(`StoreReference` reports no error) yet replaces the data entry at the
shared encoded key with the reference's target bytes, so `Get(k)` no
longer returns `v`. -/
theorem reference_keyspace_separation_and_collision
    {K V K' V' : Type} [DecidableEq K] [DecidableEq K']
    (p : file.Provider K V) (k t : K) (v : V) (w : String → Bool)
    (c : badger.KeyCodec K') (db : badger.DB K' V') (k' t' : K') (v' : V') :
    file.Get (file.StoreReference (file.Store p k v w).1 k t w).1 k = Except.ok v ∧
    (badger.StoreReference c (badger.Store c db k' v').1 k' t').2 = none ∧
    mlookup (badger.StoreReference c (badger.Store c db k' v').1 k' t').1 (c.enc k')
      = some (badger.BVal.keyBytes (c.enc t')) ∧
    badger.Get c (badger.StoreReference c (badger.Store c db k' v').1 k' t').1 k'
      ≠ Except.ok v' := by
  refine ⟨?_, rfl, ?_, ?_⟩
  · simp [file.Store, file.StoreReference, file.Get, mlookup_minsert_self]
  · simp [badger.Store, badger.StoreReference, mlookup_minsert_self]
  · simp [badger.Store, badger.StoreReference, badger.Get, mlookup_minsert_self]

/-- C9: in the Snapshot File Backend, `Remove(k)` never touches the
references mapping (so references targeting `k` survive, dangling), and
`RemoveReference(r)` never touches the entries mapping. -/
theorem remove_frame_on_other_mapping
    {K V : Type} [DecidableEq K]
    (p : file.Provider K V) (k r : K) (w : String → Bool) :
    (file.Remove p k w).1.data.references = p.data.references ∧
    (file.RemoveReference p r w).1.data.dataMap = p.data.dataMap := by
  constructor
  · cases hh : mlookup p.data.dataMap k <;> simp [file.Remove, hh]
  · cases hh : mlookup p.data.references r <;> simp [file.RemoveReference, hh]

/-- C8: the selector dispatches to the embedded-engine (Badger) backend
whenever its config is present — regardless of the file config — to the
file backend when only the file config is present, and fails with the
configuration error when neither is set. -/
theorem selector_priority_order
    (bc : selector.BadgerConfig) (fo : Option file.Config)
    (fc : file.Config) :
    selector.GetKeyValueProviderFromConfig ⟨some bc, fo⟩
      = Except.ok (selector.Selection.badgerProvider bc) ∧
    selector.GetKeyValueProviderFromConfig ⟨none, some fc⟩
      = Except.ok (selector.Selection.fileProvider fc) ∧
    selector.GetKeyValueProviderFromConfig ⟨none, none⟩
      = Except.error Err.configFailed :=
  ⟨rfl, rfl, rfl⟩

/-- C1 counterexample: in the Embedded Engine Backend, `Remove` of the
absent key `"a"` on an empty keyspace leaves the state unchanged but
returns `nil` — not the `NotFound` the claim requires — because Badger's
`txn.Delete` is an unconditional tombstone write. -/
theorem remove_absent_embedded_returns_nil :
    badger.Remove badger.stringCodec ([] : badger.DB String String) "a"
      = (([] : badger.DB String String), none) ∧
    (none : Option Err) ≠ some Err.notFound := by
  exact ⟨rfl, by simp⟩

/-- C1 (amended): in the Snapshot File Backend, `Remove(k)` on an absent
key returns `NotFound` leaving the state unchanged (and writes nothing),
and on a present key deletes it, returns no error (when the flush
succeeds), after which `Get(k)` is `NotFound`.  In the Embedded Engine
Backend, `Remove(k)` always returns no error — on an absent key it leaves
the keyspace unchanged instead of failing with `NotFound` — and afterwards
`Get(k)` is `NotFound`. -/
theorem remove_semantics_amended
    {K V K' V' : Type} [DecidableEq K] [DecidableEq K']
    (p : file.Provider K V) (k : K) (w : String → Bool)
    (c : badger.KeyCodec K') (db : badger.DB K' V') (k' : K') :
    (mlookup p.data.dataMap k = none →
      file.Remove p k w = (p, some Err.notFound, [])) ∧
    (∀ v, mlookup p.data.dataMap k = some v → w p.cfg.path = true →
      (file.Remove p k w).2.1 = none ∧
      file.Get (file.Remove p k w).1 k = Except.error Err.notFound) ∧
    (badger.Remove c db k').2 = none ∧
    (mlookup db (c.enc k') = none → (badger.Remove c db k').1 = db) ∧
    badger.Get c (badger.Remove c db k').1 k' = Except.error Err.notFound := by
  refine ⟨?_, ?_, rfl, ?_, ?_⟩
  · intro h
    simp [file.Remove, h]
  · intro v hv hw
    simp [file.Remove, hv, file.saveToFile, hw, file.Get, mlookup_merase_self]
  · intro h
    simp [badger.Remove, merase_of_mlookup_none db (c.enc k') h]
  · simp [badger.Remove, badger.Get, mlookup_merase_self]

/-- C1 witness: the amended theorem applied to the concrete provider
`pAB` (entry `a ↦ x` present) and the keyspace `dbAB`, with all
hypotheses discharged by evaluation. -/
theorem remove_semantics_amended_witness :
    (file.Remove pEmpty "a" wAll = (pEmpty, some Err.notFound, [])) ∧
    ((file.Remove pAB "a" wAll).2.1 = none ∧
      file.Get (file.Remove pAB "a" wAll).1 "a" = Except.error Err.notFound) ∧
    badger.Get badger.stringCodec
      (badger.Remove badger.stringCodec dbAB "a").1 "a"
      = Except.error Err.notFound :=
  ⟨(remove_semantics_amended pEmpty "a" wAll badger.stringCodec dbAB "a").1 rfl,
   (remove_semantics_amended pAB "a" wAll badger.stringCodec dbAB "a").2.1 "x" rfl rfl,
   (remove_semantics_amended pAB "a" wAll badger.stringCodec dbAB "a").2.2.2.2⟩

/-- C2 counterexample: `pInline` is a provider constructed from non-empty
inline content (the JSON empty document, path `/tmp/store.json`), yet
`Store` emits an `os.WriteFile` to that path: the emitted write list is
non-empty, refuting "no mutating operation writes to the file system". -/
theorem inline_content_store_writes_counterexample :
    pInline.cfg.content ≠ "" ∧
    (file.Store pInline "a" "b" wAll).2.2
      = [⟨"/tmp/store.json", file.FType.jsn, ⟨[("a", "b")], []⟩⟩] ∧
    (file.Store pInline "a" "b" wAll).2.2 ≠ [] := by
  refine ⟨?_, rfl, ?_⟩ <;> simp [pInline, inlineCfg, file.Store, file.saveToFile]

/-- C2 (amended): inline content only disables the `Setup`-time load; it
does not disable writes.  For every provider with non-empty inline
content, each mutating operation that reaches `saveToFile` (`Store`,
`StoreReference` and `Shutdown` always; `Remove`/`RemoveReference` when
the key/alias is present) emits exactly one `os.WriteFile` overwriting the
file at `cfg.Path` with the re-serialized mappings. -/
theorem inline_content_mutations_still_write
    {K V : Type} [DecidableEq K]
    (p : file.Provider K V) (hc : p.cfg.content ≠ "")
    (k r t : K) (v : V) (w : String → Bool) :
    (file.Store p k v w).2.2
      = [⟨p.cfg.path, p.fileType, (file.Store p k v w).1.data⟩] ∧
    (file.StoreReference p r t w).2.2
      = [⟨p.cfg.path, p.fileType, (file.StoreReference p r t w).1.data⟩] ∧
    (file.Shutdown p w).2 = [⟨p.cfg.path, p.fileType, p.data⟩] ∧
    (∀ v0, mlookup p.data.dataMap k = some v0 →
      (file.Remove p k w).2.2
        = [⟨p.cfg.path, p.fileType, (file.Remove p k w).1.data⟩]) ∧
    (∀ t0, mlookup p.data.references r = some t0 →
      (file.RemoveReference p r w).2.2
        = [⟨p.cfg.path, p.fileType, (file.RemoveReference p r w).1.data⟩]) := by
  refine ⟨rfl, rfl, rfl, ?_, ?_⟩
  · intro v0 hv
    simp [file.Remove, hv, file.saveToFile]
  · intro t0 ht
    simp [file.RemoveReference, ht, file.saveToFile]

/-- C2 witness: the amended theorem applied to the concrete inline
provider `pInline` (and `pAB`-shaped data for the removal parts is not
needed: `pInline` with a present key is obtained by one `Store`). -/
theorem inline_content_mutations_still_write_witness :
    (file.Store pInline "a" "b" wAll).2.2
      = [⟨pInline.cfg.path, pInline.fileType, (file.Store pInline "a" "b" wAll).1.data⟩] ∧
    (file.Shutdown pInline wAll).2
      = [⟨pInline.cfg.path, pInline.fileType, pInline.data⟩] :=
  ⟨(inline_content_mutations_still_write pInline (by simp [pInline, inlineCfg])
      "a" "r" "t" "b" wAll).1,
   (inline_content_mutations_still_write pInline (by simp [pInline, inlineCfg])
      "a" "r" "t" "b" wAll).2.2.1⟩

/-- C10: every mutating operation of the Snapshot File Backend applies its
change to the in-memory mappings before flushing; under a failing
`os.WriteFile` (`writeOk` constantly false) the operation returns the
write error, yet the mutation is observable afterwards: the stored value
is gettable, the removed key is gone, the stored reference resolves, and
the removed reference no longer resolves. -/
theorem mutation_precedes_flush_error
    {K V : Type} [DecidableEq K]
    (p : file.Provider K V) (k r t : K) (v : V) :
    ((file.Store p k v wNone).2.1 = some Err.ioFailed ∧
      file.Get (file.Store p k v wNone).1 k = Except.ok v) ∧
    (∀ v0, mlookup p.data.dataMap k = some v0 →
      (file.Remove p k wNone).2.1 = some Err.ioFailed ∧
      file.Get (file.Remove p k wNone).1 k = Except.error Err.notFound) ∧
    ((file.StoreReference p r t wNone).2.1 = some Err.ioFailed ∧
      ∀ v0, mlookup p.data.dataMap t = some v0 →
        file.GetByReference (file.StoreReference p r t wNone).1 r = Except.ok v0) ∧
    (∀ t0, mlookup p.data.references r = some t0 →
      (file.RemoveReference p r wNone).2.1 = some Err.ioFailed ∧
      file.GetByReference (file.RemoveReference p r wNone).1 r
        = Except.error Err.notFound) := by
  refine ⟨⟨?_, ?_⟩, ?_, ⟨?_, ?_⟩, ?_⟩
  · simp [file.Store, file.saveToFile, wNone]
  · simp [file.Store, file.Get, mlookup_minsert_self]
  · intro v0 hv
    constructor
    · simp [file.Remove, hv, file.saveToFile, wNone]
    · simp [file.Remove, hv, file.Get, mlookup_merase_self]
  · simp [file.StoreReference, file.saveToFile, wNone]
  · intro v0 hv
    simp [file.StoreReference, file.GetByReference, mlookup_minsert_self, hv]
  · intro t0 ht
    constructor
    · simp [file.RemoveReference, ht, file.saveToFile, wNone]
    · simp [file.RemoveReference, ht, file.GetByReference, mlookup_merase_self]

/-- C10 witness: the theorem applied to the concrete provider `pAB`
(entry `a ↦ x` and reference `r ↦ a` present), hypotheses discharged by
evaluation. -/
theorem mutation_precedes_flush_error_witness :
    ((file.Store pAB "c" "z" wNone).2.1 = some Err.ioFailed ∧
      file.Get (file.Store pAB "c" "z" wNone).1 "c" = Except.ok "z") ∧
    ((file.Remove pAB "a" wNone).2.1 = some Err.ioFailed ∧
      file.Get (file.Remove pAB "a" wNone).1 "a" = Except.error Err.notFound) ∧
    file.GetByReference (file.StoreReference pAB "s" "b" wNone).1 "s"
      = Except.ok "y" ∧
    ((file.RemoveReference pAB "r" wNone).2.1 = some Err.ioFailed ∧
      file.GetByReference (file.RemoveReference pAB "r" wNone).1 "r"
        = Except.error Err.notFound) :=
  ⟨(mutation_precedes_flush_error pAB "c" "r" "a" "z").1,
   (mutation_precedes_flush_error pAB "a" "r" "a" "z").2.1 "x" rfl,
   (mutation_precedes_flush_error pAB "a" "s" "b" "z").2.2.1.2 "y" rfl,
   (mutation_precedes_flush_error pAB "a" "r" "a" "z").2.2.2 "a" rfl⟩

/-- C5: `GetByReference` resolves in two stages in both backends — alias
absent gives `NotFound`; alias present resolving to target `t` gives
exactly `Get(t)` (hence `NotFound` again when the target is absent, stated
separately); both failure causes surface as the same unified `NotFound`.
For the engine backend, a stored alias is an entry holding the target's
encoded key bytes, and the key codec's round-trip is a hypothesis
(satisfied by both supported domains). -/
theorem get_by_reference_two_stage
    {K V K' V' : Type} [DecidableEq K] [DecidableEq K']
    (p : file.Provider K V) (r : K)
    (c : badger.KeyCodec K') (db : badger.DB K' V') (r' t' : K') :
    (mlookup p.data.references r = none →
      file.GetByReference p r = Except.error Err.notFound) ∧
    (∀ t, mlookup p.data.references r = some t →
      file.GetByReference p r = file.Get p t) ∧
    (∀ t, mlookup p.data.references r = some t →
      mlookup p.data.dataMap t = none →
      file.GetByReference p r = Except.error Err.notFound) ∧
    (mlookup db (c.enc r') = none →
      badger.GetByReference c db r' = Except.error Err.notFound) ∧
    (c.dec (c.enc t') = Except.ok t' →
      mlookup db (c.enc r') = some (badger.BVal.keyBytes (c.enc t')) →
      badger.GetByReference c db r' = badger.Get c db t') ∧
    (c.dec (c.enc t') = Except.ok t' →
      mlookup db (c.enc r') = some (badger.BVal.keyBytes (c.enc t')) →
      mlookup db (c.enc t') = none →
      badger.GetByReference c db r' = Except.error Err.notFound) := by
  refine ⟨?_, ?_, ?_, ?_, ?_, ?_⟩
  · intro h
    simp [file.GetByReference, h]
  · intro t ht
    simp only [file.GetByReference, ht, file.Get]
  · intro t ht hd
    simp [file.GetByReference, ht, hd]
  · intro h
    simp [badger.GetByReference, h]
  · intro hdec hal
    simp [badger.GetByReference, hal, hdec]
  · intro hdec hal htgt
    simp [badger.GetByReference, hal, hdec, badger.Get, htgt]

/-- C5 witness: the theorem applied to the concrete fixtures `pRefs` and
`dbRefs` (absent alias `n`, live alias `r ↦ a`, dangling alias `d ↦ m`),
all hypotheses discharged by evaluation. -/
theorem get_by_reference_two_stage_witness :
    file.GetByReference pRefs "n" = Except.error Err.notFound ∧
    file.GetByReference pRefs "r" = file.Get pRefs "a" ∧
    file.GetByReference pRefs "d" = Except.error Err.notFound ∧
    badger.GetByReference badger.stringCodec dbRefs "n"
      = Except.error Err.notFound ∧
    badger.GetByReference badger.stringCodec dbRefs "r"
      = badger.Get badger.stringCodec dbRefs "a" ∧
    badger.GetByReference badger.stringCodec dbRefs "d"
      = Except.error Err.notFound :=
  ⟨(get_by_reference_two_stage pRefs "n" badger.stringCodec dbRefs "n" "a").1 rfl,
   (get_by_reference_two_stage pRefs "r" badger.stringCodec dbRefs "r" "a").2.1 "a" rfl,
   (get_by_reference_two_stage pRefs "d" badger.stringCodec dbRefs "d" "m").2.2.1 "m" rfl rfl,
   (get_by_reference_two_stage pRefs "n" badger.stringCodec dbRefs "n" "a").2.2.2.1 rfl,
   (get_by_reference_two_stage pRefs "r" badger.stringCodec dbRefs "r" "a").2.2.2.2.1 rfl rfl,
   (get_by_reference_two_stage pRefs "d" badger.stringCodec dbRefs "d" "m").2.2.2.2.2 rfl rfl rfl⟩

/-- C6: in both backends `GetMultiple` returns, when every requested key
is present, exactly the per-key lookups in input-key order (one value per
key: the result has the input's length); when any key is absent the whole
call fails with `NotFound` and the value list is empty (Go's `[]V{}`).
For the engine backend the keyspace is assumed to hold only data entries
(gob-encoded values), since a reference's raw bytes would fail gob
decoding with a non-`NotFound` error. -/
theorem get_multiple_order_and_failure
    {K V K' V' : Type} [DecidableEq K] [DecidableEq K']
    (p : file.Provider K V) (keys : List K)
    (c : badger.KeyCodec K') (db : badger.DB K' V') (keys' : List K')
    (hwf : ∀ s bv, (s, bv) ∈ db → ∃ v, bv = badger.BVal.encVal v) :
    ((∀ k ∈ keys, (mlookup p.data.dataMap k).isSome) →
      file.GetMultiple p keys
        = (keys.filterMap (fun k => mlookup p.data.dataMap k), none) ∧
      (file.GetMultiple p keys).1.length = keys.length) ∧
    ((∃ k ∈ keys, mlookup p.data.dataMap k = none) →
      file.GetMultiple p keys = ([], some Err.notFound)) ∧
    ((∀ k ∈ keys', (mlookup db (c.enc k)).isSome) →
      badger.GetMultiple c db keys'
        = (keys'.filterMap (fun k =>
            match mlookup db (c.enc k) with
            | some (badger.BVal.encVal v) => some v
            | _ => none), none) ∧
      (badger.GetMultiple c db keys').1.length = keys'.length) ∧
    ((∃ k ∈ keys', mlookup db (c.enc k) = none) →
      badger.GetMultiple c db keys' = ([], some Err.notFound)) := by
  refine ⟨?_, file_getMultiple_absent p keys, ?_, badger_getMultiple_absent c db keys' hwf⟩
  · intro h
    refine ⟨file_getMultiple_all_present p keys h, ?_⟩
    rw [file_getMultiple_all_present p keys h]
    exact length_filterMap_of_isSome keys _ h
  · intro h
    refine ⟨badger_getMultiple_all_present c db keys' hwf h, ?_⟩
    rw [badger_getMultiple_all_present c db keys' hwf h]
    refine length_filterMap_of_isSome keys' _ ?_
    intro a ha
    obtain ⟨bv, hbv⟩ := Option.isSome_iff_exists.mp (h a ha)
    obtain ⟨v, rfl⟩ := hwf _ _ (mem_of_mlookup db (c.enc a) bv hbv)
    simp [hbv]

/-- C6 witness: the theorem applied to `pAB` / `dbAB` with the key lists
`["b", "a"]` (all present: values come back in input order) and
`["a", "n"]` (`n` absent: empty result with `NotFound`), hypotheses
discharged by evaluation. -/
theorem get_multiple_order_and_failure_witness :
    file.GetMultiple pAB ["b", "a"] = (["y", "x"], none) ∧
    file.GetMultiple pAB ["a", "n"] = ([], some Err.notFound) ∧
    badger.GetMultiple badger.stringCodec dbAB ["b", "a"] = (["y", "x"], none) ∧
    badger.GetMultiple badger.stringCodec dbAB ["a", "n"]
      = ([], some Err.notFound) := by
  have hwf : ∀ s bv, (s, bv) ∈ dbAB → ∃ v, bv = badger.BVal.encVal v := by
    intro s bv hm
    rcases List.mem_cons.mp hm with h1 | hm2
    · exact ⟨"x", congrArg Prod.snd h1⟩
    · rcases List.mem_cons.mp hm2 with h2 | h3
      · exact ⟨"y", congrArg Prod.snd h2⟩
      · simp at h3
  refine ⟨?_, ?_, ?_, ?_⟩
  · have h := (get_multiple_order_and_failure pAB ["b", "a"] badger.stringCodec
      dbAB ["b", "a"] hwf).1 (by decide)
    rw [h.1]
    rfl
  · exact (get_multiple_order_and_failure pAB ["a", "n"] badger.stringCodec
      dbAB ["a", "n"] hwf).2.1 ⟨"n", by decide, rfl⟩
  · have h := (get_multiple_order_and_failure pAB ["b", "a"] badger.stringCodec
      dbAB ["b", "a"] hwf).2.2.1 (by decide)
    rw [h.1]
    rfl
  · exact (get_multiple_order_and_failure pAB ["a", "n"] badger.stringCodec
      dbAB ["a", "n"] hwf).2.2.2 ⟨"n", by decide, rfl⟩

/-- C7: in both backends, `ForEach` with an always-true visitor visits
exactly the stored entries — the visit trace is the stored entry list
itself, and under unique keys each stored pair is visited exactly once —
and a visitor returning `false` halts the iteration immediately (the
rejecting entry is the last one visited, later entries are not), with
`ForEach` reporting no error in every case.  For the engine backend the
keyspace is the image of an entry list under the key/value encodings, with
the codec round-trip as a hypothesis. -/
theorem for_each_visits_and_halts
    {K V K' V' : Type} [DecidableEq K] [DecidableEq V]
    [DecidableEq K'] [DecidableEq V']
    (p : file.Provider K V) (fn : K → V → Bool)
    (c : badger.KeyCodec K') (l : List (K' × V')) (fn' : K' → V' → Bool)
    (hdec : ∀ e ∈ l, c.dec (c.enc e.1) = Except.ok e.1) :
    file.ForEach p (fun _ _ => true) = (none, p.data.dataMap) ∧
    ((p.data.dataMap.map Prod.fst).Nodup →
      (file.ForEach p (fun _ _ => true)).2.Nodup) ∧
    (∀ pre k v post, p.data.dataMap = pre ++ (k, v) :: post →
      (∀ e ∈ pre, fn e.1 e.2 = true) → fn k v = false →
      file.ForEach p fn = (none, pre ++ [(k, v)])) ∧
    badger.ForEach c (l.map fun e => (c.enc e.1, badger.BVal.encVal e.2))
      (fun _ _ => true) = (none, l) ∧
    ((l.map Prod.fst).Nodup →
      (badger.ForEach c (l.map fun e => (c.enc e.1, badger.BVal.encVal e.2))
        (fun _ _ => true)).2.Nodup) ∧
    (∀ pre k v post, l = pre ++ (k, v) :: post →
      (∀ e ∈ pre, fn' e.1 e.2 = true) → fn' k v = false →
      badger.ForEach c (l.map fun e => (c.enc e.1, badger.BVal.encVal e.2)) fn'
        = (none, pre ++ [(k, v)])) := by
  refine ⟨?_, ?_, ?_, ?_, ?_, ?_⟩
  · simp [file.ForEach, visits_all_true]
  · intro hnd
    have h2 : (file.ForEach p (fun _ _ => true)).2 = p.data.dataMap := by
      simp [file.ForEach, visits_all_true]
    rw [h2]
    exact List.Nodup.of_map Prod.fst hnd
  · intro pre k v post hsplit hpre hkv
    simp [file.ForEach, hsplit, visits_break pre post k v fn hpre hkv]
  · simp only [badger.ForEach]
    exact forEachScan_all_true c l hdec
  · intro hnd
    have h2 : (badger.ForEach c
        (l.map fun e => (c.enc e.1, badger.BVal.encVal e.2))
        (fun _ _ => true)).2 = l := by
      simp only [badger.ForEach]
      rw [forEachScan_all_true c l hdec]
    rw [h2]
    exact List.Nodup.of_map Prod.fst hnd
  · intro pre k v post hsplit hpre hkv
    subst hsplit
    simp only [badger.ForEach]
    exact forEachScan_break c pre post k v fn'
      (fun e he => hdec e (by simp [he])) (hdec (k, v) (by simp)) hpre hkv

/-- C7 witness: the theorem applied to the three-entry fixtures `pABC` /
`lABC` with the concrete stopping visitor `fnStop` (true on key `a`,
false on key `b`): the full scan visits all three entries once, and the
stopping scan visits `a` then halts on `b`, never reaching `c`, with no
error. -/
theorem for_each_visits_and_halts_witness :
    file.ForEach pABC (fun _ _ => true) = (none, pABC.data.dataMap) ∧
    (file.ForEach pABC (fun _ _ => true)).2.Nodup ∧
    file.ForEach pABC fnStop = (none, [("a", "x"), ("b", "y")]) ∧
    badger.ForEach badger.stringCodec
      (lABC.map fun e => (badger.stringCodec.enc e.1, badger.BVal.encVal e.2))
      (fun _ _ => true) = (none, lABC) ∧
    (badger.ForEach badger.stringCodec
      (lABC.map fun e => (badger.stringCodec.enc e.1, badger.BVal.encVal e.2))
      (fun _ _ => true)).2.Nodup ∧
    badger.ForEach badger.stringCodec
      (lABC.map fun e => (badger.stringCodec.enc e.1, badger.BVal.encVal e.2))
      fnStop = (none, [("a", "x"), ("b", "y")]) :=
  ⟨(for_each_visits_and_halts pABC fnStop badger.stringCodec lABC fnStop
      (fun _ _ => rfl)).1,
   (for_each_visits_and_halts pABC fnStop badger.stringCodec lABC fnStop
      (fun _ _ => rfl)).2.1 (by decide),
   (for_each_visits_and_halts pABC fnStop badger.stringCodec lABC fnStop
      (fun _ _ => rfl)).2.2.1 [("a", "x")] "b" "y" [("c", "z")] rfl
      (by decide) (by decide),
   (for_each_visits_and_halts pABC fnStop badger.stringCodec lABC fnStop
      (fun _ _ => rfl)).2.2.2.1,
   (for_each_visits_and_halts pABC fnStop badger.stringCodec lABC fnStop
      (fun _ _ => rfl)).2.2.2.2.1 (by decide),
   (for_each_visits_and_halts pABC fnStop badger.stringCodec lABC fnStop
      (fun _ _ => rfl)).2.2.2.2.2 [("a", "x")] "b" "y" [("c", "z")] rfl
      (by decide) (by decide)⟩

end Storage
